import Mathlib

/-!
Shallow embedding of src/rasterbator-to-dxf.py (circle extraction and
spacing analysis).  Real-valued quantities are modelled by rationals;
Python round and numpy around are round-half-to-even, modelled exactly.
-/

namespace Rasterbator

/-- Python round (and numpy around with zero decimals): nearest integer,
ties to even. -/
def round_half_even (q : ℚ) : ℤ :=
  let f := ⌊q⌋
  let frac := q - f
  if frac < 1 / 2 then f
  else if 1 / 2 < frac then f + 1
  else if f % 2 = 0 then f else f + 1

/-- The rounding used at lines 120 and 197 of the source: round a value in
millimeters to the nearest half millimeter, round(x * 2) / 2. -/
def round_to_half (x : ℚ) : ℚ :=
  (round_half_even (x * 2) : ℚ) / 2

/-- Device resolution, global pdftocairo_dpi = 72 in the source. -/
def pdftocairo_dpi : ℚ := 72

/-- Python min over a list of numbers (the source never applies it to an
empty sequence on the paths we model; 0 is a junk value for empty). -/
def pyMin (l : List ℚ) : ℚ :=
  match l with
  | [] => 0
  | h :: t => t.foldl min h

/-- Python max over a list of numbers, junk 0 on the empty list. -/
def pyMax (l : List ℚ) : ℚ :=
  match l with
  | [] => 0
  | h :: t => t.foldl max h

/-- get_center_and_radius, lines 78 to 94: bounding box of the points of a
polyline; center is the box midpoint, radius is half the vertical extent. -/
def get_center_and_radius (points : List (ℚ × ℚ)) : (ℚ × ℚ) × ℚ :=
  let x_coordinates := points.map Prod.fst
  let y_coordinates := points.map Prod.snd
  let x_min := pyMin x_coordinates
  let x_max := pyMax x_coordinates
  let y_min := pyMin y_coordinates
  let y_max := pyMax y_coordinates
  let x_diff := (x_max - x_min) / 2
  let y_diff := (y_max - y_min) / 2
  ((x_min + x_diff, y_min + y_diff), y_diff)

/-- get_center_and_radius_svg, lines 97 to 110: the bounding box arrives in
raster units, is scaled by the dpi, and the y axis is flipped against the
page height (page_h models max(page_points)[1], the page height in inches).
The returned radius is y_diff, the vertical half extent. -/
def get_center_and_radius_svg (page_h : ℚ) (bbox : ℚ × ℚ × ℚ × ℚ) : (ℚ × ℚ) × ℚ :=
  let x_min := bbox.1 / pdftocairo_dpi
  let x_max := bbox.2.1 / pdftocairo_dpi
  let y_min := bbox.2.2.1 / pdftocairo_dpi
  let y_max := bbox.2.2.2 / pdftocairo_dpi
  let y_max_new := page_h - y_min
  let y_min_new := page_h - y_max
  let x_diff := (x_max - x_min) / 2
  let y_diff := (y_max_new - y_min_new) / 2
  ((x_min + x_diff, y_min_new + y_diff), y_diff)

/-- One row of the global coords list: center x and y in millimeters and
the stored radius (half the rounded diameter) in millimeters, line 124. -/
structure CoordRec where
  x : ℚ
  y : ℚ
  r : ℚ
deriving DecidableEq

instance : Inhabited CoordRec := ⟨⟨0, 0, 0⟩⟩

/-- The mutable output state of the program: the diams list, the coords
list and the circles added to the output modelspace (center in inches,
radius in inches). -/
structure OutState where
  diams : List ℚ
  coords : List CoordRec
  modelspace : List ((ℚ × ℚ) × ℚ)
deriving DecidableEq

/-- add_circle_to_output, lines 113 to 125: convert the radius in inches
to a diameter in millimeters, round to the nearest half millimeter, and
accept the circle exactly when the rounded diameter reaches min_diam. -/
def add_circle_to_output (min_diam : ℚ) (center : ℚ × ℚ) (radius : ℚ)
    (s : OutState) : OutState :=
  let diam_mm := radius * 25.4 * 2
  let diam_mm := round_to_half diam_mm
  if min_diam ≤ diam_mm then
    { diams := s.diams ++ [diam_mm]
      coords := s.coords ++ [⟨center.1 * 25.4, center.2 * 25.4, diam_mm / 2⟩]
      modelspace := s.modelspace ++ [(center, diam_mm / 2 / 25.4)] }
  else s

/-- polyline_to_circle, lines 128 to 135: fit a circle to the points of a
polyline and hand it to add_circle_to_output. -/
def polyline_to_circle (min_diam : ℚ) (points : List (ℚ × ℚ))
    (s : OutState) : OutState :=
  let cr := get_center_and_radius points
  add_circle_to_output min_diam cr.1 cr.2 s

/-- Feeding a batch of fitted candidate circles (center, radius in inches)
through add_circle_to_output starting from the empty state, as the main
loops at lines 172 to 174 and 192 to 193 do. -/
def processCandidates (min_diam : ℚ) (cs : List ((ℚ × ℚ) × ℚ)) : OutState :=
  cs.foldl (fun s c => add_circle_to_output min_diam c.1 c.2 s) ⟨[], [], []⟩

/-- Line 197: coords[:, 2] = np.around(coords[:, 2] * 2) / 2, rounding the
stored radius column again to the nearest half millimeter. -/
def roundCol2 (coords : List CoordRec) : List CoordRec :=
  coords.map (fun p => ⟨p.x, p.y, round_to_half p.r⟩)

/-- Line 200, the cdist factor: distance.cdist(coords[:, :1], coords[:, :1])
slices only the first column (the center x in millimeters), so the euclidean
distance degenerates to the absolute difference of the x coordinates. -/
def cdistX (coords : List CoordRec) (i j : Nat) : ℚ :=
  |(coords.getD i default).x - (coords.getD j default).x|

/-- Entry (i, j) of cdist - rr - rrr at line 200; with rr, rrr from
np.meshgrid of the radius column, rr[i][j] is the radius of circle j and
rrr[i][j] the radius of circle i. -/
def gapRaw (coords : List CoordRec) (i j : Nat) : ℚ :=
  cdistX coords i j - (coords.getD j default).r - (coords.getD i default).r

/-- Entry (i, j) of np.abs(np.tril(...)) at line 200: np.tril zeroes the
entries strictly above the diagonal (it keeps the diagonal itself), then
the absolute value is taken. -/
def trilAbs (coords : List CoordRec) (i j : Nat) : ℚ :=
  |if j ≤ i then gapRaw coords i j else 0|

/-- Line 201: dists = dists[dists != 0.0], flattening the square matrix in
row major order and keeping the nonzero entries. -/
def distsList (coords : List CoordRec) : List ℚ :=
  ((List.range coords.length).flatMap
      (fun i => (List.range coords.length).map (fun j => trilAbs coords i j))).filter
    (fun v => v ≠ 0)

/-- Lines 195 to 201 as one function of the coords list built by
add_circle_to_output: re-round the radius column, then compute the
filtered distance values. -/
def pdfSpacing (coords : List CoordRec) : List ℚ :=
  distsList (roundCol2 coords)

/-- The exceptions the reporting tail of the program can raise: NameError
(dists is only assigned in the PDF branch), ValueError (min, np.min or
np.mean over an empty sequence), IndexError (coords[:, 2] on the empty
0-dimensional array when no circle was accepted). -/
inductive PyError
  | nameError
  | valueError
  | indexError
deriving DecidableEq

/-- The spacing statistics printed at lines 210 to 212. -/
structure Stats where
  mn : ℚ
  mx : ℚ
  mean : ℚ
deriving DecidableEq

/-- Outcome of the reporting tail of the run: either the spacing
statistics are printed, or an exception escapes. -/
inductive RunResult
  | ok (s : Stats)
  | err (e : PyError)
deriving DecidableEq

/-- Lines 207 to 212: len(diams) always prints, min(diams) raises
ValueError on an empty list, then np.min(dists) raises NameError when the
DXF branch never assigned dists, ValueError when dists is empty. -/
def finishReport (diams : List ℚ) (dists : Option (List ℚ)) : RunResult :=
  match diams with
  | [] => .err .valueError
  | _ :: _ =>
    match dists with
    | none => .err .nameError
    | some [] => .err .valueError
    | some (g :: gs) =>
      .ok ⟨pyMin (g :: gs), pyMax (g :: gs), (g + gs.sum) / (gs.length + 1)⟩

/-- The tail of the main program after the accepted set is built: in the
PDF branch, lines 196 to 201 run first (coords[:, 2] on an empty array
raises IndexError before the output file is written), then the report at
lines 207 to 212; in the DXF branch dists is never assigned. -/
def runReport (is_pdf : Bool) (s : OutState) : RunResult :=
  if is_pdf then
    match s.coords with
    | [] => .err .indexError
    | _ :: _ => finishReport s.diams (some (pdfSpacing s.coords))
  else finishReport s.diams none

/-- The unordered index pairs (i, j) with j at most i, i below n, in the
row major order in which the lower triangle of an n by n matrix is
flattened. -/
def lowerPairs (n : Nat) : List (Nat × Nat) :=
  (List.range n).flatMap (fun i => (List.range (i + 1)).map (fun j => (i, j)))

/-! Evaluation lemmas for the rounding function. -/

lemma round_half_even_of_lt (q : ℚ) (n : ℤ) (h1 : ⌊q⌋ = n) (h2 : q - n < 1 / 2) :
    round_half_even q = n := by
  simp only [round_half_even]
  rw [h1, if_pos h2]

lemma round_half_even_of_gt (q : ℚ) (n : ℤ) (h1 : ⌊q⌋ = n) (h2 : 1 / 2 < q - n) :
    round_half_even q = n + 1 := by
  simp only [round_half_even]
  rw [h1, if_neg (by linarith), if_pos h2]

lemma round_half_even_of_tie_even (q : ℚ) (n : ℤ) (h1 : ⌊q⌋ = n) (h2 : q - n = 1 / 2)
    (h3 : n % 2 = 0) : round_half_even q = n := by
  simp only [round_half_even]
  rw [h1, h2, if_neg (by norm_num), if_neg (by norm_num), if_pos h3]

lemma round_half_even_of_tie_odd (q : ℚ) (n : ℤ) (h1 : ⌊q⌋ = n) (h2 : q - n = 1 / 2)
    (h3 : n % 2 ≠ 0) : round_half_even q = n + 1 := by
  simp only [round_half_even]
  rw [h1, h2, if_neg (by norm_num), if_neg (by norm_num), if_neg h3]

lemma round_half_even_intCast (k : ℤ) : round_half_even (k : ℚ) = k :=
  round_half_even_of_lt _ k (by simp) (by norm_num)

lemma round_to_half_radius_one : round_to_half (1 * 25.4 * 2) = 51 := by
  have h : round_half_even (1 * 25.4 * 2 * 2) = 102 :=
    round_half_even_of_gt _ 101 (by norm_num) (by norm_num)
  rw [round_to_half, h]
  norm_num

lemma round_to_half_radius_half : round_to_half (1 / 2 * 25.4 * 2) = 51 / 2 := by
  have h : round_half_even (1 / 2 * 25.4 * 2 * 2) = 51 :=
    round_half_even_of_gt _ 50 (by norm_num) (by norm_num)
  rw [round_to_half, h]
  norm_num

lemma round_to_half_zero : round_to_half 0 = 0 := by
  have h : round_half_even ((0 : ℚ) * 2) = 0 :=
    round_half_even_of_lt _ 0 (by norm_num) (by norm_num)
  rw [round_to_half, h]
  norm_num

/-- Claim C9: the diameter rounding round(d * 2) / 2 is idempotent: a
diameter that is already an exact multiple of one half millimeter is
returned unchanged. -/
theorem c9_round_idempotent (d : ℚ) (h : ∃ k : ℤ, d = (k : ℚ) / 2) :
    round_to_half d = d := by
  obtain ⟨k, rfl⟩ := h
  have h2 : (k : ℚ) / 2 * 2 = (k : ℚ) := by ring
  rw [round_to_half, h2, round_half_even_intCast]

theorem c9_round_idempotent_witness : round_to_half ((3 : ℚ) / 2) = 3 / 2 :=
  c9_round_idempotent (3 / 2) ⟨3, by norm_num⟩

/-- Claim C10: the rounding is round-half-to-even, as the Python round
builtin is: a diameter that is an exact odd multiple of a quarter
millimeter, hence exactly midway between two half millimeter steps, goes
to the adjacent even multiple of one half (an integer number of
millimeters); in particular 1.25 rounds down to 1.0, which the default
threshold 1.5 rejects, while 1.75 rounds up to 2.0. -/
theorem c10_round_half_to_even :
    (∀ m : ℤ, ∃ k : ℤ, k % 2 = 0 ∧
        round_to_half ((2 * m + 1) / 4 : ℚ) = (k : ℚ) / 2 ∧
        |(k : ℚ) / 2 - (2 * m + 1) / 4| = 1 / 4) ∧
    round_to_half (1.25 : ℚ) = 1 ∧ ¬ (1.5 : ℚ) ≤ round_to_half 1.25 ∧
    round_to_half (1.75 : ℚ) = 2 := by
  refine ⟨fun m => ?_, ?_, ?_, ?_⟩
  · have harg : ((2 * m + 1) / 4 : ℚ) * 2 = (m : ℚ) + 1 / 2 := by ring
    have hfl : ⌊(m : ℚ) + 1 / 2⌋ = m := by
      rw [Int.floor_int_add]
      norm_num
    have htie : ((m : ℚ) + 1 / 2) - m = 1 / 2 := by ring
    rcases Int.even_or_odd m with he | ho
    · have heven : m % 2 = 0 := Int.even_iff.mp he
      refine ⟨m, heven, ?_, ?_⟩
      · rw [round_to_half, harg, round_half_even_of_tie_even _ m hfl htie heven]
      · rw [abs_eq (by norm_num)]
        right
        ring
    · have hodd : m % 2 = 1 := Int.odd_iff.mp ho
      refine ⟨m + 1, ?_, ?_, ?_⟩
      · omega
      · rw [round_to_half, harg, round_half_even_of_tie_odd _ m hfl htie (by omega)]
      · rw [abs_eq (by norm_num)]
        left
        push_cast
        ring
  · have h : round_half_even ((1.25 : ℚ) * 2) = 2 :=
      round_half_even_of_tie_even _ 2 (by norm_num) (by norm_num) (by norm_num)
    rw [round_to_half, h]
    norm_num
  · have h : round_half_even ((1.25 : ℚ) * 2) = 2 :=
      round_half_even_of_tie_even _ 2 (by norm_num) (by norm_num) (by norm_num)
    rw [round_to_half, h]
    norm_num
  · have h : round_half_even ((1.75 : ℚ) * 2) = 4 :=
      round_half_even_of_tie_odd _ 3 (by norm_num) (by norm_num) (by norm_num)
    rw [round_to_half, h]
    norm_num

/-- Claim C8: for a PointSequence the fitted center is the midpoint of the
axis aligned bounding box of the points and the radius is half the
vertical extent; for an axis aligned square of side s centered at c the
fit returns radius s over two and center c. -/
theorem c8_point_sequence_fit :
    (∀ points : List (ℚ × ℚ),
        get_center_and_radius points =
          (((pyMin (points.map Prod.fst) + pyMax (points.map Prod.fst)) / 2,
            (pyMin (points.map Prod.snd) + pyMax (points.map Prod.snd)) / 2),
           (pyMax (points.map Prod.snd) - pyMin (points.map Prod.snd)) / 2)) ∧
    (∀ cx cy s : ℚ, 0 ≤ s →
        get_center_and_radius
          [(cx - s / 2, cy - s / 2), (cx + s / 2, cy - s / 2),
           (cx + s / 2, cy + s / 2), (cx - s / 2, cy + s / 2)] =
          ((cx, cy), s / 2)) := by
  constructor
  · intro points
    simp only [get_center_and_radius, Prod.mk.injEq]
    refine ⟨⟨by ring_nf, by ring_nf⟩, by ring_nf⟩
  · intro cx cy s hs
    have hx : cx - s / 2 ≤ cx + s / 2 := by linarith
    have hy : cy - s / 2 ≤ cy + s / 2 := by linarith
    simp only [get_center_and_radius, List.map_cons, List.map_nil, pyMin, pyMax,
      List.foldl_cons, List.foldl_nil, min_eq_left hx, min_self, max_eq_right hx,
      max_eq_left hx, max_self, min_eq_left hy, max_eq_right hy, Prod.mk.injEq]
    refine ⟨⟨by ring, by ring⟩, by ring⟩

theorem c8_point_sequence_fit_witness :
    get_center_and_radius
      [((0 : ℚ) - 2 / 2, (0 : ℚ) - 2 / 2), (0 + 2 / 2, 0 - 2 / 2),
       (0 + 2 / 2, 0 + 2 / 2), (0 - 2 / 2, 0 + 2 / 2)] = ((0, 0), 2 / 2) :=
  c8_point_sequence_fit.2 0 0 2 (by norm_num)

/-- Claim C4, counterexample: for the bounding box (0, 144, 0, 72) in
raster units on a one inch high page the scaled box is 2 by 1 inches, so
the average of the horizontal and vertical half extents is 3 over 4, yet
the fitted radius is 1 over 2 (the source returns y_diff alone, line 110,
and never uses x_diff for the radius). -/
theorem c4_counterexample :
    (get_center_and_radius_svg 1 (0, 144, 0, 72)).2 = 1 / 2 ∧
    ((144 - 0) / (72 : ℚ) / 2 + (72 - 0) / (72 : ℚ) / 2) / 2 = 3 / 4 ∧
    (1 / 2 : ℚ) ≠ 3 / 4 := by
  refine ⟨?_, by norm_num, by norm_num⟩
  simp only [get_center_and_radius_svg, pdftocairo_dpi]
  norm_num

/-! Case lemmas for add_circle_to_output. -/

lemma add_circle_accept (min_diam : ℚ) (center : ℚ × ℚ) (radius : ℚ) (s : OutState)
    (h : min_diam ≤ round_to_half (radius * 25.4 * 2)) :
    add_circle_to_output min_diam center radius s =
      { diams := s.diams ++ [round_to_half (radius * 25.4 * 2)]
        coords := s.coords ++
          [⟨center.1 * 25.4, center.2 * 25.4, round_to_half (radius * 25.4 * 2) / 2⟩]
        modelspace := s.modelspace ++
          [(center, round_to_half (radius * 25.4 * 2) / 2 / 25.4)] } := by
  simp only [add_circle_to_output, if_pos h]

lemma add_circle_reject (min_diam : ℚ) (center : ℚ × ℚ) (radius : ℚ) (s : OutState)
    (h : ¬ min_diam ≤ round_to_half (radius * 25.4 * 2)) :
    add_circle_to_output min_diam center radius s = s := by
  simp only [add_circle_to_output, if_neg h]

lemma foldl_add_circle_diams_mem (min_diam : ℚ) (cs : List ((ℚ × ℚ) × ℚ))
    (s : OutState)
    (hs : ∀ d ∈ s.diams, (∃ k : ℤ, d = (k : ℚ) / 2) ∧ min_diam ≤ d) :
    ∀ d ∈ (cs.foldl (fun s c => add_circle_to_output min_diam c.1 c.2 s) s).diams,
      (∃ k : ℤ, d = (k : ℚ) / 2) ∧ min_diam ≤ d := by
  induction cs generalizing s with
  | nil => simpa using hs
  | cons c cs ih =>
    intro d hd
    rw [List.foldl_cons] at hd
    refine ih _ ?_ d hd
    intro e he
    by_cases hacc : min_diam ≤ round_to_half (c.2 * 25.4 * 2)
    · rw [add_circle_accept _ _ _ _ hacc] at he
      rcases List.mem_append.mp he with h1 | h2
      · exact hs e h1
      · have heq : e = round_to_half (c.2 * 25.4 * 2) := by simpa using h2
        subst heq
        exact ⟨⟨round_half_even (c.2 * 25.4 * 2 * 2), rfl⟩, hacc⟩
    · rw [add_circle_reject _ _ _ _ hacc] at he
      exact hs e he

/-- Claim C7: every member of the diams list built by the diameter filter
is an exact multiple of one half millimeter and at least min_diam, and a
candidate is accepted (the diams list grows by one entry) exactly when its
rounded diameter reaches min_diam. -/
theorem c7_filter_invariant (min_diam : ℚ) (cs : List ((ℚ × ℚ) × ℚ)) :
    (∀ d ∈ (processCandidates min_diam cs).diams,
        (∃ k : ℤ, d = (k : ℚ) / 2) ∧ min_diam ≤ d) ∧
    (∀ (center : ℚ × ℚ) (radius : ℚ) (s : OutState),
        (add_circle_to_output min_diam center radius s).diams.length =
            s.diams.length + 1 ↔
          min_diam ≤ round_to_half (radius * 25.4 * 2)) := by
  constructor
  · exact foldl_add_circle_diams_mem min_diam cs ⟨[], [], []⟩ (by simp)
  · intro center radius s
    by_cases hacc : min_diam ≤ round_to_half (radius * 25.4 * 2)
    · rw [add_circle_accept _ _ _ _ hacc]
      simpa using hacc
    · rw [add_circle_reject _ _ _ _ hacc]
      simp [hacc]

lemma processCandidates_single :
    processCandidates 1.5 [(((0 : ℚ), (0 : ℚ)), (1 : ℚ))] =
      ⟨[51], [⟨0, 0, 51 / 2⟩], [((0, 0), 255 / 254)]⟩ := by
  have hacc : (1.5 : ℚ) ≤ round_to_half (1 * 25.4 * 2) := by
    rw [round_to_half_radius_one]
    norm_num
  simp only [processCandidates, List.foldl_cons, List.foldl_nil]
  rw [add_circle_accept _ _ _ _ hacc, round_to_half_radius_one]
  simp only [OutState.mk.injEq, List.nil_append]
  norm_num

theorem c7_filter_invariant_witness :
    (∃ k : ℤ, (51 : ℚ) = (k : ℚ) / 2) ∧ (1.5 : ℚ) ≤ 51 := by
  apply (c7_filter_invariant 1.5 [(((0 : ℚ), (0 : ℚ)), (1 : ℚ))]).1 51
  rw [processCandidates_single]
  simp

/-- Claim C4, amended: the BoundingBoxHint path computes the radius from
the vertical half extent only, exactly as the PointSequence path does:
the returned radius is the vertical extent of the raw box scaled by the
dpi and halved, independent of the horizontal extent and the page
height. -/
theorem c4_amended (page_h x_min x_max y_min y_max : ℚ) :
    (get_center_and_radius_svg page_h (x_min, x_max, y_min, y_max)).2 =
      (y_max - y_min) / pdftocairo_dpi / 2 := by
  simp only [get_center_and_radius_svg]
  ring

/-! Lemmas for the spacing pipeline. -/

lemma roundCol2_length (c : List CoordRec) : (roundCol2 c).length = c.length := by
  simp [roundCol2]

lemma roundCol2_getD (c : List CoordRec) (i : Nat) (h : i < c.length) :
    (roundCol2 c).getD i default =
      ⟨(c.getD i default).x, (c.getD i default).y,
        round_to_half (c.getD i default).r⟩ := by
  simp [roundCol2, List.getD_eq_getElem?_getD, List.getElem?_map,
    List.getElem?_eq_getElem h]

lemma round_to_half_one : round_to_half 1 = 1 := by
  have h : round_half_even ((1 : ℚ) * 2) = 2 :=
    round_half_even_of_lt _ 2 (by norm_num) (by norm_num)
  rw [round_to_half, h]
  norm_num

/-- Claim C1, amended: the pairwise value computed at line 200 for a pair
of distinct accepted circles i and j (j below i, the surviving lower
triangle) is not the 2-D euclidean center distance minus the radii: the
cdist call slices coords[:, :1], so only the x coordinates (in
millimeters) enter, the radii are the stored ones re-rounded by line 197,
and the absolute value is applied to the difference. -/
theorem c1_amended (coords : List CoordRec) (i j : Nat) (hj : j < i)
    (hi : i < coords.length) :
    trilAbs (roundCol2 coords) i j =
      |(|(coords.getD i default).x - (coords.getD j default).x|) -
        round_to_half (coords.getD i default).r -
        round_to_half (coords.getD j default).r| := by
  have hjlen : j < coords.length := lt_trans hj hi
  rw [trilAbs, if_pos hj.le, gapRaw, cdistX, roundCol2_getD _ i hi,
    roundCol2_getD _ j hjlen]
  congr 1
  ring

theorem c1_amended_witness :
    trilAbs (roundCol2 [⟨0, 0, 1⟩, ⟨3, 4, 1⟩]) 1 0 =
      |(|(3 : ℚ) - 0|) - round_to_half 1 - round_to_half 1| := by
  have h := c1_amended [⟨0, 0, 1⟩, ⟨3, 4, 1⟩] 1 0 (by norm_num) (by norm_num)
  simpa [List.getD] using h

/-- Claim C1, counterexample: for accepted circles with centers (0, 0)
and (3, 4) millimeters and stored radii 1, the 2-D euclidean center
distance is 5 (pinned here by its square), so the gap claimed by the spec
is 5 minus the two radii = 3; the value the code computes for the pair is
1, because only the x distance 3 enters and the absolute value is
taken. -/
theorem c1_counterexample :
    ((3 : ℚ) - 0) ^ 2 + ((4 : ℚ) - 0) ^ 2 = 5 ^ 2 ∧ (0 : ℚ) ≤ 5 ∧
    trilAbs (roundCol2 [⟨0, 0, 1⟩, ⟨3, 4, 1⟩]) 1 0 ≠
      5 - round_to_half 1 - round_to_half 1 := by
  refine ⟨by norm_num, by norm_num, ?_⟩
  have h : trilAbs (roundCol2 [⟨0, 0, 1⟩, ⟨3, 4, 1⟩]) 1 0 = 1 := by
    simp [trilAbs, gapRaw, cdistX, roundCol2, List.getD, round_to_half_one]
    norm_num
  rw [h, round_to_half_one]
  norm_num

/-- Claim C2, counterexample: a single accepted circle has no distinct
unordered pair at all, so under the claim the statistics set would be
empty; the code produces the value 2 (the diagonal self pair of np.tril,
distance 0 minus twice the radius 1, absolute value 2), which also
survives the nonzero filter. -/
theorem c2_counterexample :
    pdfSpacing [⟨0, 0, 1⟩] = [2] ∧ pdfSpacing [⟨0, 0, 1⟩] ≠ [] := by
  have h : pdfSpacing [⟨0, 0, 1⟩] = [2] := by
    simp [pdfSpacing, roundCol2, distsList, List.range_succ, trilAbs, gapRaw,
      cdistX, List.getD, round_to_half_one]
    norm_num
  exact ⟨h, by rw [h]; simp⟩

/-- Claim C2, amended: the statistics set contains exactly one value per
unordered pair of accepted circles INCLUDING the self pairs i = j (np.tril
keeps the diagonal, where the value is twice the stored radius), except
that any value exactly 0.0 is excluded. -/
theorem c2_amended (c : List CoordRec) :
    distsList c =
      ((lowerPairs c.length).map (fun p => |gapRaw c p.1 p.2|)).filter
        (fun v => v ≠ 0) := by
  rw [distsList, lowerPairs, List.map_flatMap, List.filter_flatMap,
    List.filter_flatMap]
  apply List.flatMap_congr
  intro i hi
  rw [List.mem_range] at hi
  rw [List.map_map]
  have hsplit : List.range c.length =
      List.range (i + 1) ++
        (List.range (c.length - (i + 1))).map (fun x => (i + 1) + x) := by
    rw [← List.range_add]
    congr 1
    omega
  rw [hsplit, List.map_append, List.filter_append]
  have h2 : (((List.range (c.length - (i + 1))).map (fun x => (i + 1) + x)).map
        (fun j => trilAbs c i j)).filter (fun v => decide (v ≠ 0)) = [] := by
    rw [List.filter_eq_nil_iff]
    intro a ha
    simp only [List.mem_map, List.mem_range] at ha
    obtain ⟨x, hx, rfl⟩ := ha
    obtain ⟨x', hx', rfl⟩ := hx
    have : trilAbs c i (i + 1 + x') = 0 := by
      rw [trilAbs, if_neg (by omega)]
      simp
    simp [this]
  rw [h2, List.append_nil]
  congr 1
  apply List.map_congr_left
  intro j hj
  rw [List.mem_range] at hj
  rw [trilAbs, if_pos (by omega)]
  rfl

/-! Evaluation of the reporting tail on concrete runs. -/

lemma processCandidates_pair :
    processCandidates 1.5
      [(((0 : ℚ), (0 : ℚ)), (1 : ℚ)), (((10 : ℚ), (0 : ℚ)), (1 : ℚ))] =
      ⟨[51, 51], [⟨0, 0, 51 / 2⟩, ⟨254, 0, 51 / 2⟩],
        [((0, 0), 255 / 254), ((10, 0), 255 / 254)]⟩ := by
  have hacc : (1.5 : ℚ) ≤ round_to_half (1 * 25.4 * 2) := by
    rw [round_to_half_radius_one]
    norm_num
  simp only [processCandidates, List.foldl_cons, List.foldl_nil]
  rw [add_circle_accept _ _ _ _ hacc, add_circle_accept _ _ _ _ hacc,
    round_to_half_radius_one]
  simp only [OutState.mk.injEq, List.nil_append, List.append_assoc,
    List.cons_append, List.nil_append]
  norm_num

/-- Claim C3, evaluated at the failing input: a DXF run whose accepted set
holds two circles of rounded diameter 51 millimeters reaches the
statistics report with the dists name never assigned (lines 195 to 201
live in the PDF branch only), so line 210 raises NameError instead of
producing the spacing statistics the claim promises for every input
variant. -/
theorem c3_dxf_stats_nameerror :
    runReport false (processCandidates 1.5
      [(((0 : ℚ), (0 : ℚ)), (1 : ℚ)), (((10 : ℚ), (0 : ℚ)), (1 : ℚ))]) =
      .err .nameError := by
  rw [processCandidates_pair]
  rfl

lemma round_to_half_fifty_one_halves : round_to_half ((51 : ℚ) / 2) = 51 / 2 := by
  have harg : ((51 : ℚ) / 2) * 2 = ((51 : ℤ) : ℚ) := by norm_num
  rw [round_to_half, harg, round_half_even_intCast]
  norm_num

/-- Claim C5, counterexample: with exactly ONE accepted circle (fewer than
two), a PDF run does not surface any insufficient data condition: the
diagonal self pair survives as the value 51 (the circle diameter after the
line 197 re-round) and the program reports min = max = mean = 51. -/
theorem c5_counterexample :
    runReport true (processCandidates 1.5 [(((0 : ℚ), (0 : ℚ)), (1 : ℚ))]) =
      .ok ⟨51, 51, 51⟩ := by
  rw [processCandidates_single]
  have hsp : pdfSpacing [⟨0, 0, 51 / 2⟩] = [51] := by
    simp [pdfSpacing, roundCol2, distsList, List.range_succ, trilAbs, gapRaw,
      cdistX, List.getD, round_to_half_fifty_one_halves]
    norm_num
  simp only [runReport, finishReport, hsp]
  norm_num [pyMin, pyMax]

lemma distsList_single (d : CoordRec) (h : d.r ≠ 0) :
    distsList [d] = [2 * |d.r|] := by
  have htril : trilAbs [d] 0 0 = 2 * |d.r| := by
    rw [trilAbs, if_pos (le_refl 0), gapRaw, cdistX]
    simp only [List.getD_cons_zero]
    rw [sub_self, abs_zero,
      show (0 : ℚ) - d.r - d.r = -(2 * d.r) by ring, abs_neg, abs_mul]
    norm_num
  have hne : 2 * |d.r| ≠ 0 := by simp [abs_eq_zero, h]
  rw [distsList, show ([d] : List CoordRec).length = 1 from rfl,
    show List.range 1 = [0] from rfl]
  simp only [List.flatMap_cons, List.flatMap_nil, List.map_cons, List.map_nil,
    List.append_nil]
  rw [htril]
  simp [List.filter, hne]

lemma pdfSpacing_single (c : CoordRec) (h : round_to_half c.r ≠ 0) :
    pdfSpacing [c] = [2 * |round_to_half c.r|] := by
  rw [pdfSpacing,
    show roundCol2 [c] = [⟨c.x, c.y, round_to_half c.r⟩] from by simp [roundCol2]]
  exact distsList_single _ h

/-- Claim C5, amended: no distinct insufficient data condition exists.
With one accepted circle whose re-rounded stored radius is nonzero, the
PDF pipeline reports min = max = mean = twice that radius (the self pair
of the diagonal), a plain statistic and not an error; with zero accepted
circles the PDF pipeline raises IndexError at line 197, BEFORE the output
file is written, so the geometry writing step does not complete either. -/
theorem c5_amended :
    (∀ (c : CoordRec) (d : ℚ) (ds : List ℚ), round_to_half c.r ≠ 0 →
        ∀ ms, runReport true ⟨d :: ds, [c], ms⟩ =
          .ok ⟨2 * |round_to_half c.r|, 2 * |round_to_half c.r|,
               2 * |round_to_half c.r|⟩) ∧
    (∀ (diams : List ℚ) (ms : List ((ℚ × ℚ) × ℚ)),
        runReport true ⟨diams, [], ms⟩ = .err .indexError) := by
  constructor
  · intro c d ds hr ms
    simp only [runReport]
    rw [pdfSpacing_single c hr]
    simp [finishReport, pyMin, pyMax]
  · intro diams ms
    rfl

theorem c5_amended_witness :
    runReport true ⟨[(2 : ℚ)], [⟨0, 0, 1⟩], []⟩ =
      .ok ⟨2 * |round_to_half 1|, 2 * |round_to_half 1|, 2 * |round_to_half 1|⟩ :=
  c5_amended.1 ⟨0, 0, 1⟩ 2 [] (by rw [round_to_half_one]; norm_num) []

/-- Claim C6, counterexample: a primitive whose bounding box has ZERO
WIDTH but positive height, the two point polyline from (0, 0) to (0, 1)
inches, is not excluded at all: the fitter returns radius one half inch
(the radius only looks at the vertical extent), the rounded diameter is
25.5 millimeters, and the circle is accepted into the set. -/
theorem c6_counterexample :
    (polyline_to_circle 1.5 [((0 : ℚ), (0 : ℚ)), ((0 : ℚ), (1 : ℚ))]
        ⟨[], [], []⟩).diams = [51 / 2] := by
  simp only [polyline_to_circle]
  have hfit : get_center_and_radius [((0 : ℚ), (0 : ℚ)), ((0 : ℚ), (1 : ℚ))] =
      ((0, 1 / 2), 1 / 2) := by
    simp [get_center_and_radius, pyMin, pyMax]
  rw [hfit]
  have hacc : (1.5 : ℚ) ≤ round_to_half (1 / 2 * 25.4 * 2) := by
    rw [round_to_half_radius_half]
    norm_num
  rw [add_circle_accept _ _ _ _ hacc, round_to_half_radius_half]
  simp

lemma foldl_min_const (y : ℚ) (t : List ℚ) :
    List.foldl min y (t.map (fun _ => y)) = y := by
  induction t with
  | nil => rfl
  | cons a t ih =>
    rw [List.map_cons, List.foldl_cons, min_self]
    exact ih

lemma foldl_max_const (y : ℚ) (t : List ℚ) :
    List.foldl max y (t.map (fun _ => y)) = y := by
  induction t with
  | nil => rfl
  | cons a t ih =>
    rw [List.map_cons, List.foldl_cons, max_self]
    exact ih

lemma get_center_and_radius_const_y (xs : List ℚ) (y : ℚ) (h : xs ≠ []) :
    (get_center_and_radius (xs.map (fun x => (x, y)))).2 = 0 := by
  obtain ⟨a, t, rfl⟩ := List.exists_cons_of_ne_nil h
  simp only [get_center_and_radius, List.map_cons, List.map_map]
  have hsnd : (Prod.snd ∘ fun x => (x, y)) = fun _ : ℚ => y := rfl
  rw [hsnd]
  simp only [pyMin, pyMax, foldl_min_const, foldl_max_const]
  ring

/-- Claim C6, amended: there is no DegenerateGeometry condition. A zero
height primitive (all points share one y value) is fitted without error to
radius 0; its rounded diameter 0 then fails any positive min_diam
threshold, so the diameter filter drops it, the state is unchanged and the
batch continues. A zero width primitive is not excluded (see the
counterexample). -/
theorem c6_amended (xs : List ℚ) (y : ℚ) (min_diam : ℚ) (s : OutState)
    (hxs : xs ≠ []) (hmin : 0 < min_diam) :
    (get_center_and_radius (xs.map (fun x => (x, y)))).2 = 0 ∧
    polyline_to_circle min_diam (xs.map (fun x => (x, y))) s = s := by
  have hr := get_center_and_radius_const_y xs y hxs
  refine ⟨hr, ?_⟩
  simp only [polyline_to_circle]
  apply add_circle_reject
  rw [hr, show (0 : ℚ) * 25.4 * 2 = 0 by ring, round_to_half_zero]
  linarith

theorem c6_amended_witness :
    (get_center_and_radius ([(0 : ℚ)].map (fun x => (x, (0 : ℚ))))).2 = 0 ∧
    polyline_to_circle 1.5 ([(0 : ℚ)].map (fun x => (x, (0 : ℚ))))
      ⟨[], [], []⟩ = ⟨[], [], []⟩ :=
  c6_amended [0] 0 1.5 ⟨[], [], []⟩ (by simp) (by norm_num)

end Rasterbator
